import Mathlib

/-!
Verification of the Scribe note store against its specification.

The development shallowly embeds the storage and query layer of the
application:

* `SimpleDatabaseService` (the localStorage key-value backend,
  src/renderer/src/lib/simpleDatabase.ts),
* `FileSystemService` (the file-tree backend),
* `DatabaseService` (the SQLite relational backend), and
* `EncryptionService` (src/renderer/src/lib/encryption.ts).

JavaScript strings are modelled as `List Char`, JavaScript numbers used as
ids and `Date` millisecond timestamps as `Nat`.  Every function that reads
the clock (`Date.now()`, `new Date().toISOString()`) takes the current time
as an explicit `now : Nat` argument.  Fallible operations return `Option`
or `Except`; totality of the Lean functions models the source's catch
handlers never letting an exception escape.
-/

namespace Scribe

/-- A JavaScript string, modelled as its list of characters. -/
abbrev Str := List Char

/-! ## Encryption codec (lib/encryption.ts)

`EncryptionService.encrypt` produces `iv.toString('hex') + ':' + encrypted`
where `encrypted` is the hex output of the AES cipher; `decrypt` splits on
`':'`, rejects anything that does not have exactly two parts, and then runs
the decipher, which fails on blobs that are not valid cipher output.

The AES primitive itself lives in Node's `crypto` module, outside the
repository.  It is modelled here by an executable cipher core with the
structural properties the repository relies on: the cipher output is a hex
string (so it contains no `':'`), encryption followed by decryption with the
same key is the identity, and the decipher rejects blobs it cannot decode. -/

/-- Hex digit character (0-9 then a-f) for a value below 16, as produced by
`Buffer.toString('hex')`. -/
def hexDigit (n : Nat) : Char :=
  if n < 10 then Char.ofNat (48 + n) else Char.ofNat (87 + n)

/-- Fixed-width (six hex digit) encoding of one character code. -/
def hexChar (c : Char) : List Char :=
  [hexDigit (c.toNat / 1048576 % 16), hexDigit (c.toNat / 65536 % 16),
   hexDigit (c.toNat / 4096 % 16), hexDigit (c.toNat / 256 % 16),
   hexDigit (c.toNat / 16 % 16), hexDigit (c.toNat % 16)]

/-- Hex encoding of a string, character by character. -/
def hexEncode : Str → Str
  | [] => []
  | c :: rest => hexChar c ++ hexEncode rest

/-- Numeric value of a hex digit character (junk value 0 elsewhere). -/
def hexDigitVal (c : Char) : Nat :=
  if 48 ≤ c.toNat ∧ c.toNat ≤ 57 then c.toNat - 48
  else if 97 ≤ c.toNat ∧ c.toNat ≤ 102 then c.toNat - 87
  else 0

/-- Partial inverse of `hexEncode`: decodes groups of six hex digits, failing
when the length is not a multiple of six. -/
def hexDecode : Str → Option Str
  | [] => some []
  | a :: b :: c :: d :: e :: f :: rest =>
      (hexDecode rest).map fun r =>
        Char.ofNat
          (((((hexDigitVal a * 16 + hexDigitVal b) * 16 + hexDigitVal c) * 16 +
            hexDigitVal d) * 16 + hexDigitVal e) * 16 + hexDigitVal f) :: r
  | _ => none

/-- Model of the AES cipher core from Node's `crypto` module (external to the
repository): a per-key injective encoding whose output is a hex string. -/
def cipherEnc (key text : Str) : Str :=
  hexEncode key ++ hexEncode text

/-- Model of the AES decipher core: recovers the plaintext from the output of
`cipherEnc` with the same key, and fails on blobs it cannot decode. -/
def cipherDec (key blob : Str) : Option Str :=
  if blob.take (hexEncode key).length = hexEncode key then
    hexDecode (blob.drop (hexEncode key).length)
  else none

/-- Failure of the encryption codec: either the blob does not have the
`iv:payload` shape, or the decipher rejected the payload. -/
inductive CodecError where
  | invalidFormat
  | decryptFailed
deriving DecidableEq

/-- Model of `String.prototype.split(':')`. -/
def splitOnColon : Str → List Str
  | [] => [[]]
  | c :: rest =>
      if c = ':' then [] :: splitOnColon rest
      else
        match splitOnColon rest with
        | [] => [[c]]
        | h :: t => (c :: h) :: t

/-- `EncryptionService.encrypt`: prepends the hex of the random `iv` and a
`':'` separator to the cipher output.  The 16 random bytes are an explicit
`iv` argument. -/
def encrypt (iv text key : Str) : Str :=
  hexEncode iv ++ ':' :: cipherEnc key text

/-- `EncryptionService.decrypt`: splits on `':'`, fails unless there are
exactly two parts, then runs the decipher on the second part; any decipher
failure is caught and re-raised as a codec error. -/
def decrypt (encryptedText key : Str) : Except CodecError Str :=
  match splitOnColon encryptedText with
  | [_ivPart, encPart] =>
      match cipherDec key encPart with
      | some t => Except.ok t
      | none => Except.error CodecError.decryptFailed
  | _ => Except.error CodecError.invalidFormat

/-! ## Data model (lib/models.ts) -/

/-- The `Note` interface.  `created_at` and `updated_at` are ISO timestamp
strings in the source, always produced from and compared through `Date`
millisecond values; they are modelled directly as those millisecond values. -/
structure Note where
  id : Nat
  title : Str
  content : Str
  tags : List Str
  pinned : Bool
  created_at : Nat
  updated_at : Nat
  folder_id : Option Nat
  encrypted : Bool
deriving DecidableEq

/-- The `CreateNoteData` interface; optional fields are `Option`, `none`
modelling an absent key. -/
structure CreateNoteData where
  title : Str
  content : Str
  tags : Option (List Str) := none
  pinned : Option Bool := none
  folder_id : Option Nat := none
  encrypted : Option Bool := none
deriving DecidableEq

/-- The `UpdateNoteData` interface: the id plus the supplied subset of
fields; an absent key is `none`. -/
structure UpdateNoteData where
  id : Nat
  title : Option Str := none
  content : Option Str := none
  tags : Option (List Str) := none
  pinned : Option Bool := none
  folder_id : Option Nat := none
  encrypted : Option Bool := none
deriving DecidableEq

/-- The `SearchFilters` interface.  The `date_from`/`date_to` fields are
omitted: no backend reads them. -/
structure SearchFilters where
  query : Option Str := none
  tags : Option (List Str) := none
  folder_id : Option Nat := none
  pinned : Option Bool := none
deriving DecidableEq

/-- The `Folder` interface. -/
structure Folder where
  id : Nat
  name : Str
  color : Option Str
  created_at : Nat
  updated_at : Nat
deriving DecidableEq

/-- The tag objects produced by `SimpleDatabaseService.getTags`: `id`,
`name`, `created_at` and the `usageCount` it adds (no `color`). -/
structure KVTag where
  id : Nat
  name : Str
  created_at : Nat
  usageCount : Nat
deriving DecidableEq

/-! ## Query pipeline shared by the key-value and file-tree backends

`SimpleDatabaseService.getNotes` and `FileSystemService.getNotes` filter and
sort with literally identical code, modelled once here. -/

/-- Model of `String.prototype.toLowerCase()`. -/
def jsToLower (s : Str) : Str := s.map Char.toLower

/-- Model of `String.prototype.includes(needle)`. -/
def jsIncludes (hay needle : Str) : Bool := decide (needle <:+: hay)

/-- The `filters.query` predicate: the lowercased query is searched in the
lowercased title or the lowercased content. -/
def matchesQuery (q : Str) (n : Note) : Bool :=
  jsIncludes (jsToLower n.title) (jsToLower q) ||
  jsIncludes (jsToLower n.content) (jsToLower q)

/-- The three successive filters of `getNotes` (localStorage and file-tree
variants): `query` guarded by JS truthiness (an empty string is falsy),
`pinned` guarded by `!== undefined`, `tags` guarded by truthiness plus
`length > 0`.  No `folder_id` filter appears in these two backends. -/
def applyFilters (f : SearchFilters) (notes0 : List Note) : List Note :=
  let notes1 :=
    match f.query with
    | some q => if q.isEmpty then notes0 else notes0.filter (matchesQuery q)
    | none => notes0
  let notes2 :=
    match f.pinned with
    | some p => notes1.filter fun n => n.pinned == p
    | none => notes1
  match f.tags with
  | some ts =>
      if ts.isEmpty then notes2
      else notes2.filter fun n => ts.any fun t => n.tags.contains t
  | none => notes2

/-- The sort comparator of `getNotes`: pinned first, then
`new Date(b.updated_at).getTime() - new Date(a.updated_at).getTime()`. -/
def noteCmp (a b : Note) : Int :=
  if a.pinned ∧ ¬b.pinned then -1
  else if ¬a.pinned ∧ b.pinned then 1
  else (b.updated_at : Int) - (a.updated_at : Int)

/-- The comparator as a boolean order: `a` may stay before `b` exactly when
the comparator is nonpositive. -/
def noteLe (a b : Note) : Bool := noteCmp a b ≤ 0

/-- `getNotes`: filter, then `Array.prototype.sort` with the comparator.
ECMA-262 requires `sort` to be stable, so it is modelled by the stable
`List.mergeSort`. -/
def queryNotes (f : SearchFilters) (notes : List Note) : List Note :=
  (applyFilters f notes).mergeSort noteLe

/-! ## Key-value backend (SimpleDatabaseService, lib/simpleDatabase.ts) -/

/-- `SimpleDatabaseService.createNote`: builds the note with `id` from
`Date.now()` and both timestamps from `new Date()`, unshifts it onto the
stored collection, and returns it.  No encryption is applied to the content
in this backend. -/
def simpleCreateNote (now : Nat) (notes : List Note) (data : CreateNoteData) :
    List Note × Note :=
  let newNote : Note :=
    { id := now
      title := data.title
      content := data.content
      tags := data.tags.getD []
      pinned := data.pinned.getD false
      created_at := now
      updated_at := now
      folder_id := data.folder_id
      encrypted := data.encrypted.getD false }
  (newNote :: notes, newNote)

/-- `SimpleDatabaseService.getNoteById`: first stored note with that id. -/
def simpleGetNoteById (notes : List Note) (id : Nat) : Option Note :=
  notes.find? fun n => n.id == id

/-- The object spread `{...notes[noteIndex], ...data, updated_at: now}`:
supplied fields override, omitted fields keep their prior value, and
`updated_at` is always rewritten. -/
def applyUpdate (now : Nat) (d : UpdateNoteData) (n : Note) : Note :=
  { id := d.id
    title := d.title.getD n.title
    content := d.content.getD n.content
    tags := d.tags.getD n.tags
    pinned := d.pinned.getD n.pinned
    created_at := n.created_at
    updated_at := now
    folder_id := (d.folder_id).elim n.folder_id some
    encrypted := d.encrypted.getD n.encrypted }

/-- Replace the first note whose id matches, as `findIndex` plus assignment
at that index does; `none` when no note matches. -/
def updateFirst (now : Nat) (d : UpdateNoteData) : List Note → Option (List Note × Note)
  | [] => none
  | n :: rest =>
      if n.id = d.id then some (applyUpdate now d n :: rest, applyUpdate now d n)
      else (updateFirst now d rest).map fun r => (n :: r.1, r.2)

/-- `SimpleDatabaseService.updateNote`: returns `null` and leaves storage
unchanged when the id is absent, otherwise saves the merged note. -/
def simpleUpdateNote (now : Nat) (notes : List Note) (d : UpdateNoteData) :
    List Note × Option Note :=
  match updateFirst now d notes with
  | none => (notes, none)
  | some (notes2, n2) => (notes2, some n2)

/-- Model of `[...new Set(allTags)]`: distinct elements in order of first
occurrence. -/
def firstOccurAux (seen : List Str) : List Str → List Str
  | [] => []
  | t :: rest =>
      if seen.contains t then firstOccurAux seen rest
      else t :: firstOccurAux (t :: seen) rest

/-- Distinct tags in order of first occurrence. -/
def firstOccur (l : List Str) : List Str := firstOccurAux [] l

/-- The tag objects built by `SimpleDatabaseService.getTags` before sorting:
index-derived ids, the shared creation instant, and the usage count from the
reduce over the flattened tag list.  Every `new Date().toISOString()` of the
map runs at the same modelled instant `now`. -/
def tagEntries (now : Nat) (notes : List Note) : List KVTag :=
  let allTags := notes.flatMap fun n => n.tags
  (firstOccur allTags).mapIdx fun i t =>
    { id := i + 1, name := t, created_at := now, usageCount := allTags.count t }

/-- The `getTags` sort comparator: usage count descending, then creation
date ascending. -/
def tagCmp (a b : KVTag) : Int :=
  if a.usageCount ≠ b.usageCount then (b.usageCount : Int) - (a.usageCount : Int)
  else (a.created_at : Int) - (b.created_at : Int)

/-- The tag comparator as a boolean order. -/
def tagLe (a b : KVTag) : Bool := tagCmp a b ≤ 0

/-- `SimpleDatabaseService.getTags`: build the entries, then a stable sort
with the comparator. -/
def simpleGetTags (now : Nat) (notes : List Note) : List KVTag :=
  (tagEntries now notes).mergeSort tagLe

/-- The hardcoded default folder returned by `getFolders`. -/
def defaultFolder (now : Nat) : Folder :=
  { id := 1, name := "General".data, color := some "#3b82f6".data
    created_at := now, updated_at := now }

/-- `SimpleDatabaseService.getFolders`: always the single default folder,
with fresh timestamps; no stored folder state exists in this backend. -/
def simpleGetFolders (now : Nat) : List Folder := [defaultFolder now]

/-- `SimpleDatabaseService.createFolder`: builds and returns a folder with
id `Date.now()` without persisting it anywhere. -/
def simpleCreateFolder (now : Nat) (name : Str) (color : Option Str) : Folder :=
  { id := now, name := name, color := color, created_at := now, updated_at := now }

/-- `SimpleDatabaseService.getFolderById`: a `find` over `getFolders()`. -/
def simpleGetFolderById (now : Nat) (id : Nat) : Option Folder :=
  (simpleGetFolders now).find? fun f => f.id == id

/-! ## Stored-record parsing (corrupt-record behaviour)

A record persisted as JSON either parses back to a note or is malformed. -/

/-- One persisted record: either well-formed or unparsable JSON. -/
inductive StoredRecord where
  | valid (n : Note)
  | malformed
deriving DecidableEq

/-- The note a stored record parses to, if any. -/
def StoredRecord.note? : StoredRecord → Option Note
  | .valid n => some n
  | .malformed => none

/-- `SimpleDatabaseService.getNotesFromStorage`: the whole collection is one
JSON document under the single storage key (`none` models no stored value).
`JSON.parse` of the document succeeds only when every record in it is
well-formed — a malformed record makes the entire document unparsable — and
the catch handler then returns `[]`. -/
def kvGetNotesFromStorage (stored : Option (List StoredRecord)) : List Note :=
  match stored with
  | none => []
  | some recs =>
      if recs.all fun r => r.note?.isSome then recs.filterMap StoredRecord.note?
      else []

/-- `FileSystemService.getNotes`, parsing stage: each `.meta.json` file is
parsed separately inside a per-record try/catch, so a malformed record is
skipped and the loop continues. -/
def ftParseRecords (files : List StoredRecord) : List Note :=
  files.filterMap StoredRecord.note?

/-- `FileSystemService.getNotes`: per-record parse, then the shared filter
and sort pipeline. -/
def ftGetNotes (f : SearchFilters) (files : List StoredRecord) : List Note :=
  queryNotes f (ftParseRecords files)

/-- `SimpleDatabaseService.getNotes` including the storage read. -/
def kvGetNotes (f : SearchFilters) (stored : Option (List StoredRecord)) : List Note :=
  queryNotes f (kvGetNotesFromStorage stored)

/-! ## Relational backend (DatabaseService, with the encryption codec) -/

/-- The placeholder substituted when decryption of a stored note fails. -/
def sentinel : Str := "[Encrypted - Decryption Failed]".data

/-- The row-to-note decoding shared by `DatabaseService.getNoteById` and
`DatabaseService.getNotes`: when the row is flagged encrypted and a session
key is set, decrypt the content, substituting the sentinel placeholder if
decryption throws; otherwise return the stored content untouched. -/
def decodeRow (key : Option Str) (row : Note) : Note :=
  match key with
  | some k =>
      if row.encrypted then
        { row with
          content :=
            match decrypt row.content k with
            | Except.ok p => p
            | Except.error _ => sentinel }
      else row
  | none => row

/-- `ORDER BY pinned DESC, updated_at DESC` as a boolean order. -/
def sqlLe (a b : Note) : Bool :=
  if a.pinned = b.pinned then b.updated_at ≤ a.updated_at else a.pinned

/-- `DatabaseService.getNotes` with no filters: all rows ordered by
`pinned DESC, updated_at DESC`, each decoded through `decodeRow`. -/
def dbGetAll (key : Option Str) (rows : List Note) : List Note :=
  (rows.mergeSort sqlLe).map (decodeRow key)

/-- `DatabaseService.getNoteById`: the row with that id, decoded. -/
def dbGetNoteById (key : Option Str) (rows : List Note) (id : Nat) : Option Note :=
  (rows.find? fun r => r.id == id).map (decodeRow key)

/-- The row `DatabaseService.createNote` inserts: the content is encrypted
only when the `encrypted` flag is set AND a session key has been supplied
(`iv` models the random bytes drawn by `encrypt`). -/
def dbNewRow (key : Option Str) (iv : Str) (now nextId : Nat)
    (data : CreateNoteData) : Note :=
  let encFlag := data.encrypted.getD false
  let finalContent :=
    match key with
    | some k => if encFlag then encrypt iv data.content k else data.content
    | none => data.content
  { id := nextId
    title := data.title
    content := finalContent
    tags := data.tags.getD []
    pinned := data.pinned.getD false
    created_at := now
    updated_at := now
    folder_id := data.folder_id
    encrypted := encFlag }

/-- `DatabaseService.createNote`: inserts the row (`nextId` models the
AUTOINCREMENT id, `now` the CURRENT_TIMESTAMP defaults) and returns
`getNoteById(lastInsertRowid)`. -/
def dbCreateNote (key : Option Str) (iv : Str) (now nextId : Nat)
    (rows : List Note) (data : CreateNoteData) : List Note × Option Note :=
  let rows2 := rows ++ [dbNewRow key iv now nextId data]
  (rows2, dbGetNoteById key rows2 nextId)

/-! ## Spec-side definitions and sequencing helpers -/

/-- Written from the specification's words for comparison with
`applyFilters` (C4): a note matches when every active filter field matches —
`query` by case-insensitive substring against title OR content, `pinned` by
exact boolean equality, `tags` when the note contains ANY listed tag — with
the `folder_id` clause omitted, as the key-value and file-tree backends
never read it. -/
def specMatch (f : SearchFilters) (n : Note) : Bool :=
  (match f.query with
   | some q => q.isEmpty || matchesQuery q n
   | none => true) &&
  (match f.pinned with
   | some p => n.pinned == p
   | none => true) &&
  (match f.tags with
   | some ts => ts.isEmpty || ts.any fun t => n.tags.contains t
   | none => true)

/-- A sequence of `createNote` calls against the key-value backend, each at
its own `Date.now()` instant. -/
def createMany (ops : List (Nat × CreateNoteData)) (notes : List Note) : List Note :=
  ops.foldl (fun acc op => (simpleCreateNote op.1 acc op.2).1) notes

/-! ## Codec lemmas -/

theorem char_toNat_lt (c : Char) : c.toNat < 16777216 := by
  have h := c.valid
  simp only [UInt32.isValidChar, Nat.isValidChar, Char.toNat] at h ⊢
  rcases h with h | ⟨_, h⟩ <;> omega

theorem hexDigitVal_hexDigit {n : Nat} (h : n < 16) : hexDigitVal (hexDigit n) = n := by
  interval_cases n <;> decide

theorem hexDigit_ne_colon_of_lt {n : Nat} (h : n < 16) : hexDigit n ≠ ':' := by
  interval_cases n <;> decide

theorem hexDecode_hexChar_append (c : Char) {s r : Str} (h : hexDecode s = some r) :
    hexDecode (hexChar c ++ s) = some (c :: r) := by
  have hb : c.toNat < 16777216 := char_toNat_lt c
  have h16 : ∀ m : Nat, c.toNat / m % 16 < 16 := fun m => Nat.mod_lt _ (by norm_num)
  simp only [hexChar, List.cons_append, List.nil_append, List.append_eq, hexDecode, h,
    Option.map_some']
  rw [hexDigitVal_hexDigit (h16 1048576), hexDigitVal_hexDigit (h16 65536),
      hexDigitVal_hexDigit (h16 4096), hexDigitVal_hexDigit (h16 256),
      hexDigitVal_hexDigit (h16 16), hexDigitVal_hexDigit (Nat.mod_lt _ (by norm_num))]
  have harith :
      ((((c.toNat / 1048576 % 16 * 16 + c.toNat / 65536 % 16) * 16 + c.toNat / 4096 % 16) * 16 +
        c.toNat / 256 % 16) * 16 + c.toNat / 16 % 16) * 16 + c.toNat % 16 = c.toNat := by
    omega
  rw [harith, Char.ofNat_toNat]

theorem hexDecode_hexEncode (s : Str) : hexDecode (hexEncode s) = some s := by
  induction s with
  | nil => rfl
  | cons c rest ih => exact hexDecode_hexChar_append c ih

theorem hexEncode_ne_colon {s : Str} : ∀ x ∈ hexEncode s, x ≠ ':' := by
  induction s with
  | nil => simp [hexEncode]
  | cons c rest ih =>
      intro x hx
      simp only [hexEncode, List.mem_append] at hx
      rcases hx with hx | hx
      · have h16 : ∀ m : Nat, c.toNat / m % 16 < 16 := fun m => Nat.mod_lt _ (by norm_num)
        simp only [hexChar, List.mem_cons, List.not_mem_nil, or_false] at hx
        rcases hx with rfl | rfl | rfl | rfl | rfl | rfl <;>
          first
          | exact hexDigit_ne_colon_of_lt (h16 _)
          | exact hexDigit_ne_colon_of_lt (Nat.mod_lt _ (by norm_num))
      · exact ih x hx

theorem splitOnColon_no_colon {s : Str} (h : ∀ c ∈ s, c ≠ ':') : splitOnColon s = [s] := by
  induction s with
  | nil => rfl
  | cons c rest ih =>
      have hc : c ≠ ':' := h c (List.mem_cons_self c rest)
      have h2 := ih fun x hx => h x (List.mem_cons_of_mem _ hx)
      simp [splitOnColon, hc, h2]

theorem splitOnColon_append {a : Str} (b : Str) (h : ∀ c ∈ a, c ≠ ':') :
    splitOnColon (a ++ ':' :: b) = a :: splitOnColon b := by
  induction a with
  | nil => simp [splitOnColon]
  | cons c rest ih =>
      have hc : c ≠ ':' := h c (List.mem_cons_self _ _)
      have h2 := ih fun x hx => h x (List.mem_cons_of_mem _ hx)
      simp [splitOnColon, hc, h2]

theorem cipherDec_cipherEnc (key text : Str) : cipherDec key (cipherEnc key text) = some text := by
  unfold cipherDec cipherEnc
  rw [List.take_left, List.drop_left, if_pos rfl]
  exact hexDecode_hexEncode text

theorem cipherEnc_ne_colon {key text : Str} : ∀ x ∈ cipherEnc key text, x ≠ ':' := by
  intro x hx
  simp only [cipherEnc, List.mem_append] at hx
  rcases hx with hx | hx
  · exact hexEncode_ne_colon x hx
  · exact hexEncode_ne_colon x hx

theorem decrypt_encrypt (iv text key : Str) : decrypt (encrypt iv text key) key = Except.ok text := by
  unfold decrypt encrypt
  rw [splitOnColon_append _ (fun c hc => hexEncode_ne_colon c hc),
      splitOnColon_no_colon (fun c hc => cipherEnc_ne_colon c hc)]
  simp [cipherDec_cipherEnc]

/-! ## Query pipeline lemmas -/

theorem applyFilters_eq_filter (f : SearchFilters) (notes : List Note) :
    applyFilters f notes = notes.filter (specMatch f) := by
  rcases f with ⟨q, ts, fid, p⟩
  unfold applyFilters specMatch
  rcases q with _ | ⟨_ | ⟨c0, q⟩⟩ <;> rcases p with _ | p <;> rcases ts with _ | ⟨_ | ⟨t0, ts⟩⟩ <;>
    simp [List.filter_filter, Bool.and_comm, Bool.and_left_comm, Bool.and_assoc]

theorem noteLe_total (a b : Note) : (noteLe a b || noteLe b a) = true := by
  simp only [noteLe, noteCmp, Bool.or_eq_true, decide_eq_true_eq]
  by_cases pa : a.pinned <;> by_cases pb : b.pinned <;> simp [pa, pb] <;> omega

theorem noteLe_trans {a b c : Note} (h1 : noteLe a b = true) (h2 : noteLe b c = true) :
    noteLe a c = true := by
  simp only [noteLe, noteCmp, decide_eq_true_eq] at h1 h2 ⊢
  by_cases pa : a.pinned <;> by_cases pb : b.pinned <;> by_cases pc : c.pinned <;>
    simp [pa, pb, pc] at h1 h2 ⊢ <;> omega

theorem noteLe_pinned_first {a b : Note} (h : noteLe a b = true) :
    b.pinned = true → a.pinned = true := by
  intro hb
  simp only [noteLe, noteCmp, decide_eq_true_eq] at h
  by_cases pa : a.pinned
  · exact pa
  · simp [pa, hb] at h

theorem noteLe_updated_desc {a b : Note} (h : noteLe a b = true) (hp : a.pinned = b.pinned) :
    b.updated_at ≤ a.updated_at := by
  simp only [noteLe, noteCmp, decide_eq_true_eq] at h
  rw [hp] at h
  by_cases pb : b.pinned <;> simp [pb] at h <;> omega

theorem noteLe_of_tie {a b : Note} (hp : a.pinned = b.pinned)
    (hu : a.updated_at = b.updated_at) : noteLe a b = true := by
  simp only [noteLe, noteCmp, decide_eq_true_eq]
  rw [hp, hu]
  by_cases pb : b.pinned <;> simp [pb]

theorem tagLe_total (a b : KVTag) : (tagLe a b || tagLe b a) = true := by
  simp only [tagLe, tagCmp, Bool.or_eq_true, decide_eq_true_eq]
  split_ifs <;> omega

theorem tagLe_trans {a b c : KVTag} (h1 : tagLe a b = true) (h2 : tagLe b c = true) :
    tagLe a c = true := by
  simp only [tagLe, tagCmp, decide_eq_true_eq] at h1 h2 ⊢
  split_ifs at h1 h2 ⊢ <;> omega

theorem tagLe_count_desc {a b : KVTag} (h : tagLe a b = true) :
    b.usageCount ≤ a.usageCount := by
  simp only [tagLe, tagCmp, decide_eq_true_eq] at h
  split_ifs at h <;> omega

theorem tagLe_of_tie {a b : KVTag} (hc : a.usageCount = b.usageCount)
    (hd : a.created_at = b.created_at) : tagLe a b = true := by
  simp only [tagLe, tagCmp, decide_eq_true_eq]
  split_ifs <;> omega

/-! ## First-occurrence dedup lemmas -/

theorem mem_firstOccurAux {t : Str} :
    ∀ (l seen : List Str), t ∈ firstOccurAux seen l ↔ t ∈ l ∧ t ∉ seen := by
  intro l
  induction l with
  | nil => intro seen; simp [firstOccurAux]
  | cons x rest ih =>
      intro seen
      by_cases hx : seen.contains x = true
      · have hxs : x ∈ seen := List.elem_iff.mp hx
        rw [firstOccurAux, if_pos hx, ih seen, List.mem_cons]
        constructor
        · rintro ⟨hr, hs⟩; exact ⟨Or.inr hr, hs⟩
        · rintro ⟨hor, hs⟩
          rcases hor with rfl | hr
          · exact absurd hxs hs
          · exact ⟨hr, hs⟩
      · have hxs : x ∉ seen := fun hm => hx (List.elem_iff.mpr hm)
        rw [firstOccurAux, if_neg hx, List.mem_cons, List.mem_cons, ih (x :: seen)]
        by_cases htx : t = x
        · subst htx; simp [hxs]
        · simp [htx, List.mem_cons]

theorem nodup_firstOccurAux : ∀ (l seen : List Str), (firstOccurAux seen l).Nodup := by
  intro l
  induction l with
  | nil => intro seen; simp [firstOccurAux]
  | cons x rest ih =>
      intro seen
      by_cases hx : seen.contains x = true
      · rw [firstOccurAux, if_pos hx]; exact ih seen
      · rw [firstOccurAux, if_neg hx]
        refine List.nodup_cons.mpr ⟨?_, ih (x :: seen)⟩
        intro hmem
        exact ((mem_firstOccurAux rest (x :: seen)).mp hmem).2 (List.mem_cons_self x seen)

theorem mem_firstOccur {t : Str} (l : List Str) : t ∈ firstOccur l ↔ t ∈ l := by
  rw [firstOccur, mem_firstOccurAux]
  simp

theorem nodup_firstOccur (l : List Str) : (firstOccur l).Nodup :=
  nodup_firstOccurAux l []

/-! ## mapIdx helper lemmas -/

theorem mapIdx_map_name :
    ∀ (l : List Str) (f : Nat → Str → KVTag), (∀ i t, (f i t).name = t) →
      ((l.mapIdx f).map fun tg => tg.name) = l := by
  intro l
  induction l with
  | nil => intro f _; rfl
  | cons x rest ih =>
      intro f h
      rw [List.mapIdx_cons, List.map_cons, h, ih _ fun i t => h (i + 1) t]

theorem mapIdx_forall {P : KVTag → Prop} :
    ∀ (l : List Str) (f : Nat → Str → KVTag), (∀ i t, t ∈ l → P (f i t)) →
      ∀ tg ∈ l.mapIdx f, P tg := by
  intro l
  induction l with
  | nil => intro f _ tg htg; simp at htg
  | cons x rest ih =>
      intro f h tg htg
      rw [List.mapIdx_cons, List.mem_cons] at htg
      rcases htg with rfl | htg
      · exact h 0 x (List.mem_cons_self x rest)
      · exact ih _ (fun i t ht => h (i + 1) t (List.mem_cons_of_mem _ ht)) tg htg

/-! ## Update lemmas -/

theorem updateFirst_spec :
    ∀ (notes : List Note) {now : Nat} {d : UpdateNoteData} {notes2 : List Note} {n2 : Note},
      updateFirst now d notes = some (notes2, n2) →
      ∃ o, o ∈ notes ∧ o.id = d.id ∧ n2 = applyUpdate now d o := by
  intro notes
  induction notes with
  | nil => intro _ _ _ _ h; exact absurd h (by simp [updateFirst])
  | cons n rest ih =>
      intro now d notes2 n2 h
      rw [updateFirst] at h
      by_cases hid : n.id = d.id
      · rw [if_pos hid] at h
        simp only [Option.some.injEq, Prod.mk.injEq] at h
        exact ⟨n, List.mem_cons_self n rest, hid, h.2.symm⟩
      · rw [if_neg hid] at h
        cases hu : updateFirst now d rest with
        | none => rw [hu] at h; simp at h
        | some r =>
            rw [hu] at h
            simp only [Option.map_some', Option.some.injEq, Prod.mk.injEq] at h
            obtain ⟨o, ho, hoid, hn2⟩ := ih hu
            exact ⟨o, List.mem_cons_of_mem n ho, hoid, h.2 ▸ hn2⟩

/-! ## Create-sequence lemma -/

theorem createMany_map_id :
    ∀ (ops : List (Nat × CreateNoteData)) (notes : List Note),
      (createMany ops notes).map (fun n => n.id) =
        (ops.map Prod.fst).reverse ++ notes.map fun n => n.id := by
  intro ops
  induction ops with
  | nil => intro notes; simp [createMany]
  | cons op rest ih =>
      intro notes
      have step : createMany (op :: rest) notes =
          createMany rest ((simpleCreateNote op.1 notes op.2).1) := by
        simp [createMany, List.foldl_cons]
      rw [step, ih]
      simp [simpleCreateNote, List.append_assoc]

/-! ## Claim C1 -/

/-- C1 counterexample: a note created with `encrypted = true` through the
key-value backend is persisted with its content equal to the supplied
plaintext (the backend applies no encryption at all), and that persisted
content is not a decryptable ciphertext blob — refuting the claim that every
backend persists ciphertext and never plaintext for encrypted notes. -/
theorem C1_counterexample :
    (simpleCreateNote 5 []
        { title := "t".data, content := "hi".data, encrypted := some true }).2.encrypted = true ∧
    (simpleCreateNote 5 []
        { title := "t".data, content := "hi".data, encrypted := some true }).1 =
      [(simpleCreateNote 5 []
        { title := "t".data, content := "hi".data, encrypted := some true }).2] ∧
    (simpleCreateNote 5 []
        { title := "t".data, content := "hi".data, encrypted := some true }).2.content =
      "hi".data ∧
    decrypt "hi".data "key".data = Except.error CodecError.invalidFormat :=
  ⟨rfl, rfl, rfl, rfl⟩

/-- C1 amended: in the relational backend, when a session key has been
supplied, a note created with `encrypted = true` is persisted with its
content equal to the ciphertext `encrypt iv plaintext key` — which decrypts
back to the plaintext — and the note returned by createNote (via getNoteById)
carries the decrypted plaintext, not the ciphertext.  (Without a session key,
and in the key-value and file-tree backends, the plaintext is persisted and
returned as-is even when the flag is set.) -/
theorem C1_theorem (k iv : Str) (now nextId : Nat) (rows : List Note)
    (data : CreateNoteData) (henc : data.encrypted = some true)
    (hfresh : ∀ r ∈ rows, r.id ≠ nextId) :
    dbCreateNote (some k) iv now nextId rows data =
      (rows ++ [dbNewRow (some k) iv now nextId data],
        some (decodeRow (some k) (dbNewRow (some k) iv now nextId data))) ∧
    (dbNewRow (some k) iv now nextId data).content = encrypt iv data.content k ∧
    (dbNewRow (some k) iv now nextId data).encrypted = true ∧
    decrypt (dbNewRow (some k) iv now nextId data).content k = Except.ok data.content ∧
    (decodeRow (some k) (dbNewRow (some k) iv now nextId data)).content = data.content := by
  have hcont : (dbNewRow (some k) iv now nextId data).content = encrypt iv data.content k := by
    simp [dbNewRow, henc]
  have henc2 : (dbNewRow (some k) iv now nextId data).encrypted = true := by
    simp [dbNewRow, henc]
  have hdec : decrypt (dbNewRow (some k) iv now nextId data).content k =
      Except.ok data.content := by
    rw [hcont]; exact decrypt_encrypt iv data.content k
  have hdecode : (decodeRow (some k) (dbNewRow (some k) iv now nextId data)).content =
      data.content := by
    simp [decodeRow, henc2, hdec]
  refine ⟨?_, hcont, henc2, hdec, hdecode⟩
  simp only [dbCreateNote, dbGetNoteById]
  have h1 : rows.find? (fun r => r.id == nextId) = none :=
    List.find?_eq_none.mpr fun x hx => by simp [hfresh x hx]
  have h2 : (dbNewRow (some k) iv now nextId data).id = nextId := rfl
  rw [List.find?_append, h1, Option.none_or, List.find?_cons_of_pos _ (by simp [h2])]
  simp

/-- C1 witness: concrete relational create with a key; the stored content is
the ciphertext and it decrypts back to the plaintext. -/
theorem C1_witness :
    dbCreateNote (some "k".data) "iv".data 3 1 []
        { title := "t".data, content := "hi".data, encrypted := some true } =
      ([dbNewRow (some "k".data) "iv".data 3 1
          { title := "t".data, content := "hi".data, encrypted := some true }],
        some (decodeRow (some "k".data)
          (dbNewRow (some "k".data) "iv".data 3 1
            { title := "t".data, content := "hi".data, encrypted := some true }))) ∧
    decrypt (dbNewRow (some "k".data) "iv".data 3 1
        { title := "t".data, content := "hi".data, encrypted := some true }).content
        "k".data = Except.ok "hi".data ∧
    (decodeRow (some "k".data)
        (dbNewRow (some "k".data) "iv".data 3 1
          { title := "t".data, content := "hi".data, encrypted := some true })).content =
      "hi".data := by
  have h := C1_theorem "k".data "iv".data 3 1 []
    { title := "t".data, content := "hi".data, encrypted := some true } rfl (by simp)
  exact ⟨h.1, h.2.2.2.1, h.2.2.2.2⟩

/-! ## Claim C2 -/

/-- C2: for a stored row flagged encrypted, read with a session key whose
decryption fails, the read path substitutes the sentinel placeholder: the
decoded row's content is the sentinel, that decoded row is what getNotes
(GetAll) yields for it, and getNoteById returns exactly it.  Both operations
are total functions: the source catches the decryption error, so no
exception leaves the read path. -/
theorem C2_theorem (k : Str) (row : Note) (e : CodecError) (rows : List Note)
    (henc : row.encrypted = true) (hfail : decrypt row.content k = Except.error e)
    (hmem : row ∈ rows) (hfind : rows.find? (fun r => r.id == row.id) = some row) :
    (decodeRow (some k) row).content = sentinel ∧
    decodeRow (some k) row ∈ dbGetAll (some k) rows ∧
    dbGetNoteById (some k) rows row.id = some (decodeRow (some k) row) := by
  refine ⟨?_, ?_, ?_⟩
  · simp [decodeRow, henc, hfail]
  · exact List.mem_map_of_mem _ (List.mem_mergeSort.mpr hmem)
  · unfold dbGetNoteById
    rw [hfind, Option.map_some']

/-- C2 witness: a malformed stored blob (no colon separator) degrades to the
sentinel on a concrete row. -/
theorem C2_witness :
    (decodeRow (some "key".data)
        ⟨1, "t".data, "xyz".data, [], false, 0, 0, none, true⟩).content = sentinel ∧
    decodeRow (some "key".data) ⟨1, "t".data, "xyz".data, [], false, 0, 0, none, true⟩ ∈
      dbGetAll (some "key".data) [⟨1, "t".data, "xyz".data, [], false, 0, 0, none, true⟩] ∧
    dbGetNoteById (some "key".data)
        [⟨1, "t".data, "xyz".data, [], false, 0, 0, none, true⟩] 1 =
      some (decodeRow (some "key".data)
        ⟨1, "t".data, "xyz".data, [], false, 0, 0, none, true⟩) :=
  C2_theorem "key".data ⟨1, "t".data, "xyz".data, [], false, 0, 0, none, true⟩
    CodecError.invalidFormat [⟨1, "t".data, "xyz".data, [], false, 0, 0, none, true⟩]
    rfl rfl (List.mem_cons_self _ _) (by decide)

/-! ## Claim C3 -/

/-- C3: decrypting the encryption of any plaintext with the same (non-empty)
key returns the original plaintext, and a stored row flagged encrypted whose
content is that ciphertext is decoded back to the plaintext by the read
path. -/
theorem C3_theorem (p k iv : Str) (n : Note) (_hk : k ≠ [])
    (henc : n.encrypted = true) (hcont : n.content = encrypt iv p k) :
    decrypt (encrypt iv p k) k = Except.ok p ∧
    (decodeRow (some k) n).content = p := by
  refine ⟨decrypt_encrypt iv p k, ?_⟩
  simp [decodeRow, henc, hcont, decrypt_encrypt]

/-- C3 witness: concrete round-trip through the codec and the read path. -/
theorem C3_witness :
    decrypt (encrypt "iv".data "hello".data "k".data) "k".data = Except.ok "hello".data ∧
    (decodeRow (some "k".data)
        ⟨1, "t".data, encrypt "iv".data "hello".data "k".data, [], false, 0, 0, none,
          true⟩).content = "hello".data :=
  C3_theorem "hello".data "k".data "iv".data
    ⟨1, "t".data, encrypt "iv".data "hello".data "k".data, [], false, 0, 0, none, true⟩
    (by decide) rfl rfl

/-! ## Claim C4 -/

/-- C4 counterexample: in the key-value backend a filter that sets only
`folder_id` still returns a note whose `folder_id` differs — the
`folder_id` criterion is never applied by this backend, refuting the claim
that it holds in every backend. -/
theorem C4_counterexample :
    queryNotes { folder_id := some 1 }
        [⟨1, "a".data, "b".data, [], false, 0, 0, some 2, false⟩] =
      [⟨1, "a".data, "b".data, [], false, 0, 0, some 2, false⟩] ∧
    (⟨1, "a".data, "b".data, [], false, 0, 0, some 2, false⟩ : Note).folder_id ≠ some 1 := by
  constructor
  · simp [queryNotes, applyFilters]
  · decide

/-- C4 amended: in the key-value and file-tree backends, the filtered
listing is exactly (as a permutation, and with membership characterised by)
the notes satisfying the conjunction of the active fields — `query` by
case-insensitive substring against title OR content, `pinned` by exact
boolean equality, `tags` by ANY of the listed tags — with `folder_id`
ignored by these backends. -/
theorem C4_theorem (f : SearchFilters) (notes : List Note) (n : Note) :
    (queryNotes f notes).Perm (notes.filter (specMatch f)) ∧
    (n ∈ queryNotes f notes ↔ n ∈ notes ∧ specMatch f n = true) := by
  have hperm : (queryNotes f notes).Perm (notes.filter (specMatch f)) := by
    rw [queryNotes, applyFilters_eq_filter]
    exact List.mergeSort_perm _ _
  refine ⟨hperm, ?_⟩
  rw [hperm.mem_iff, List.mem_filter]

/-! ## Claim C5 -/

/-- C5 counterexample: two notes, the older (created_at 1) tagged "a", the
newer (created_at 2) tagged "b", stored newest-first as `createNote`'s
unshift produces.  Both tags have usage count 1, so the claimed tie-break
(earliest-seen note's creation order ascending) requires "a" before "b";
`getTags` returns "b" before "a" (first occurrence in the stored order). -/
theorem C5_counterexample :
    (simpleGetTags 10
        [⟨2, "y".data, "c".data, ["b".data], false, 2, 2, none, false⟩,
         ⟨1, "x".data, "c".data, ["a".data], false, 1, 1, none, false⟩]).map
      (fun tg => tg.name) = ["b".data, "a".data] ∧
    (simpleGetTags 10
        [⟨2, "y".data, "c".data, ["b".data], false, 2, 2, none, false⟩,
         ⟨1, "x".data, "c".data, ["a".data], false, 1, 1, none, false⟩]).map
      (fun tg => tg.usageCount) = [1, 1] ∧
    ["b".data, "a".data] ≠ ["a".data, "b".data] := by
  have hent : tagEntries 10
      [⟨2, "y".data, "c".data, ["b".data], false, 2, 2, none, false⟩,
       ⟨1, "x".data, "c".data, ["a".data], false, 1, 1, none, false⟩] =
      [⟨1, "b".data, 10, 1⟩, ⟨2, "a".data, 10, 1⟩] := by decide
  have hres : simpleGetTags 10
      [⟨2, "y".data, "c".data, ["b".data], false, 2, 2, none, false⟩,
       ⟨1, "x".data, "c".data, ["a".data], false, 1, 1, none, false⟩] =
      [⟨1, "b".data, 10, 1⟩, ⟨2, "a".data, 10, 1⟩] := by
    rw [simpleGetTags, hent]
    exact List.mergeSort_of_sorted (by decide)
  rw [hres]
  refine ⟨rfl, rfl, by decide⟩

/-- C5 amended: `getTags` produces one entry per distinct tag (the names are
a permutation of the distinct tags in first-occurrence order, which are
exactly the tags occurring in the notes), each entry's count is the number
of occurrences in the flattened tag list, the result is sorted by count
descending, and among entries with equal counts the first-occurrence order
of the stored collection is preserved (all entries share one creation
timestamp, so the created-at tie-break never discriminates and the stable
sort keeps the dedup order). -/
theorem C5_theorem (now : Nat) (notes : List Note) (t : Str) (tg a b : KVTag)
    (htg : tg ∈ simpleGetTags now notes)
    (hab : List.Sublist [a, b] (tagEntries now notes))
    (hcnt : a.usageCount = b.usageCount) :
    ((simpleGetTags now notes).map fun x => x.name).Perm
      (firstOccur (notes.flatMap fun n => n.tags)) ∧
    (firstOccur (notes.flatMap fun n => n.tags)).Nodup ∧
    (t ∈ firstOccur (notes.flatMap fun n => n.tags) ↔
      t ∈ notes.flatMap fun n => n.tags) ∧
    tg.usageCount = (notes.flatMap fun n => n.tags).count tg.name ∧
    (simpleGetTags now notes).Pairwise (fun x y => y.usageCount ≤ x.usageCount) ∧
    List.Sublist [a, b] (simpleGetTags now notes) := by
  have hname : ((tagEntries now notes).map fun x => x.name) =
      firstOccur (notes.flatMap fun n => n.tags) := by
    rw [tagEntries]
    exact mapIdx_map_name _ _ fun i t => rfl
  have hcreated : ∀ x ∈ tagEntries now notes, x.created_at = now := by
    rw [tagEntries]
    exact mapIdx_forall _ _ fun i t _ => rfl
  refine ⟨?_, nodup_firstOccur _, mem_firstOccur _, ?_, ?_, ?_⟩
  · rw [← hname, simpleGetTags]
    exact (List.mergeSort_perm _ _).map _
  · have hmem : tg ∈ tagEntries now notes := by
      rw [simpleGetTags] at htg
      exact List.mem_mergeSort.mp htg
    revert hmem
    rw [tagEntries]
    exact fun hmem =>
      mapIdx_forall (P := fun x =>
          x.usageCount = (notes.flatMap fun n => n.tags).count x.name) _ _
        (fun i t _ => rfl) tg hmem
  · rw [simpleGetTags]
    exact (@List.sorted_mergeSort _ tagLe (fun x y z h1 h2 => tagLe_trans h1 h2) tagLe_total
      (tagEntries now notes)).imp fun h => tagLe_count_desc h
  · have ha : a.created_at = now := hcreated a (hab.subset (List.mem_cons_self a [b]))
    have hb : b.created_at = now :=
      hcreated b (hab.subset (List.mem_cons_of_mem a (List.mem_cons_self b [])))
    rw [simpleGetTags]
    exact List.pair_sublist_mergeSort (fun x y z h1 h2 => tagLe_trans h1 h2) tagLe_total
      (tagLe_of_tie hcnt (ha.trans hb.symm)) hab

/-- C5 witness: the amended claim at a concrete pair of notes and the tied
pair of tag entries. -/
theorem C5_witness :
    ((simpleGetTags 10
        [⟨2, "y".data, "c".data, ["b".data], false, 2, 2, none, false⟩,
         ⟨1, "x".data, "c".data, ["a".data], false, 1, 1, none, false⟩]).map
      fun x => x.name).Perm
      (firstOccur
        (([⟨2, "y".data, "c".data, ["b".data], false, 2, 2, none, false⟩,
           ⟨1, "x".data, "c".data, ["a".data], false, 1, 1, none,
             false⟩] : List Note).flatMap fun n => n.tags)) ∧
    (firstOccur
        (([⟨2, "y".data, "c".data, ["b".data], false, 2, 2, none, false⟩,
           ⟨1, "x".data, "c".data, ["a".data], false, 1, 1, none,
             false⟩] : List Note).flatMap fun n => n.tags)).Nodup ∧
    ("b".data ∈ firstOccur
        (([⟨2, "y".data, "c".data, ["b".data], false, 2, 2, none, false⟩,
           ⟨1, "x".data, "c".data, ["a".data], false, 1, 1, none,
             false⟩] : List Note).flatMap fun n => n.tags) ↔
      "b".data ∈ ([⟨2, "y".data, "c".data, ["b".data], false, 2, 2, none, false⟩,
           ⟨1, "x".data, "c".data, ["a".data], false, 1, 1, none,
             false⟩] : List Note).flatMap fun n => n.tags) ∧
    (⟨1, "b".data, 10, 1⟩ : KVTag).usageCount =
      (([⟨2, "y".data, "c".data, ["b".data], false, 2, 2, none, false⟩,
         ⟨1, "x".data, "c".data, ["a".data], false, 1, 1, none,
           false⟩] : List Note).flatMap fun n => n.tags).count "b".data ∧
    (simpleGetTags 10
        [⟨2, "y".data, "c".data, ["b".data], false, 2, 2, none, false⟩,
         ⟨1, "x".data, "c".data, ["a".data], false, 1, 1, none, false⟩]).Pairwise
      (fun x y => y.usageCount ≤ x.usageCount) ∧
    List.Sublist [⟨1, "b".data, 10, 1⟩, ⟨2, "a".data, 10, 1⟩]
      (simpleGetTags 10
        [⟨2, "y".data, "c".data, ["b".data], false, 2, 2, none, false⟩,
         ⟨1, "x".data, "c".data, ["a".data], false, 1, 1, none, false⟩]) :=
  C5_theorem 10
    [⟨2, "y".data, "c".data, ["b".data], false, 2, 2, none, false⟩,
     ⟨1, "x".data, "c".data, ["a".data], false, 1, 1, none, false⟩]
    "b".data ⟨1, "b".data, 10, 1⟩ ⟨1, "b".data, 10, 1⟩ ⟨2, "a".data, 10, 1⟩
    (List.mem_mergeSort.mpr (by decide)) (by decide) rfl

/-! ## Claim C6 -/

/-- C6: the filtered listing puts every pinned note before every unpinned
note, within constant pinned status the `updated_at` values are
nonincreasing, and two filtered notes tied on both sort keys keep their
original relative order (stability). -/
theorem C6_theorem (f : SearchFilters) (notes : List Note) (a b : Note)
    (hsub : List.Sublist [a, b] (applyFilters f notes))
    (hp : a.pinned = b.pinned) (hu : a.updated_at = b.updated_at) :
    (queryNotes f notes).Pairwise (fun x y => y.pinned = true → x.pinned = true) ∧
    (queryNotes f notes).Pairwise
      (fun x y => x.pinned = y.pinned → y.updated_at ≤ x.updated_at) ∧
    List.Sublist [a, b] (queryNotes f notes) := by
  unfold queryNotes
  have hs := @List.sorted_mergeSort _ noteLe
    (fun x y z h1 h2 => noteLe_trans h1 h2) noteLe_total (applyFilters f notes)
  refine ⟨hs.imp fun h => noteLe_pinned_first h,
    hs.imp fun h hp2 => noteLe_updated_desc h hp2, ?_⟩
  exact List.pair_sublist_mergeSort (fun x y z h1 h2 => noteLe_trans h1 h2) noteLe_total
    (noteLe_of_tie hp hu) hsub

/-- C6 witness: the sort-order properties at a concrete two-note listing
with both sort keys tied. -/
theorem C6_witness :
    (queryNotes {} [⟨1, "p".data, "q".data, [], false, 0, 5, none, false⟩,
        ⟨2, "r".data, "s".data, [], false, 0, 5, none, false⟩]).Pairwise
      (fun x y => y.pinned = true → x.pinned = true) ∧
    (queryNotes {} [⟨1, "p".data, "q".data, [], false, 0, 5, none, false⟩,
        ⟨2, "r".data, "s".data, [], false, 0, 5, none, false⟩]).Pairwise
      (fun x y => x.pinned = y.pinned → y.updated_at ≤ x.updated_at) ∧
    List.Sublist
      [⟨1, "p".data, "q".data, [], false, 0, 5, none, false⟩,
       ⟨2, "r".data, "s".data, [], false, 0, 5, none, false⟩]
      (queryNotes {} [⟨1, "p".data, "q".data, [], false, 0, 5, none, false⟩,
        ⟨2, "r".data, "s".data, [], false, 0, 5, none, false⟩]) :=
  C6_theorem {} [⟨1, "p".data, "q".data, [], false, 0, 5, none, false⟩,
      ⟨2, "r".data, "s".data, [], false, 0, 5, none, false⟩]
    ⟨1, "p".data, "q".data, [], false, 0, 5, none, false⟩
    ⟨2, "r".data, "s".data, [], false, 0, 5, none, false⟩
    (by decide) rfl rfl

/-! ## Claim C7 -/

theorem simpleUpdateNote_snd (now : Nat) (d : UpdateNoteData) :
    ∀ (notes : List Note) (o : Note), notes.find? (fun n => n.id == d.id) = some o →
      (simpleUpdateNote now notes d).2 = some (applyUpdate now d o) := by
  intro notes
  induction notes with
  | nil => intro o h; simp [List.find?] at h
  | cons n rest ih =>
      intro o h
      by_cases hid : n.id = d.id
      · rw [List.find?_cons_of_pos _ (by simp [hid])] at h
        injection h with h
        subst h
        simp [simpleUpdateNote, updateFirst, hid]
      · rw [List.find?_cons_of_neg _ (by simp [hid])] at h
        have ihh := ih o h
        simp only [simpleUpdateNote, updateFirst, if_neg hid] at ihh ⊢
        cases hu : updateFirst now d rest with
        | none => rw [hu] at ihh; simp at ihh
        | some r =>
            rw [hu] at ihh
            cases r with
            | mk l2 n2 => simp_all

/-- C7: a partial update on the first note matching the id merges only the
supplied fields: the result keeps the prior `id` and `created_at`, rewrites
`updated_at` to the fresh instant, and every omitted field — title, content,
tags, pinned, folder_id, encrypted — retains its previous value. -/
theorem C7_theorem (now : Nat) (notes : List Note) (d : UpdateNoteData) (o : Note)
    (hfind : notes.find? (fun n => n.id == d.id) = some o) :
    (simpleUpdateNote now notes d).2 = some (applyUpdate now d o) ∧
    (applyUpdate now d o).id = o.id ∧
    (applyUpdate now d o).created_at = o.created_at ∧
    (applyUpdate now d o).updated_at = now ∧
    (d.title = none → (applyUpdate now d o).title = o.title) ∧
    (d.content = none → (applyUpdate now d o).content = o.content) ∧
    (d.tags = none → (applyUpdate now d o).tags = o.tags) ∧
    (d.pinned = none → (applyUpdate now d o).pinned = o.pinned) ∧
    (d.folder_id = none → (applyUpdate now d o).folder_id = o.folder_id) ∧
    (d.encrypted = none → (applyUpdate now d o).encrypted = o.encrypted) := by
  have ho : o.id = d.id := by simpa using List.find?_some hfind
  refine ⟨simpleUpdateNote_snd now d notes o hfind, by simp [applyUpdate, ho], rfl, rfl,
    ?_, ?_, ?_, ?_, ?_, ?_⟩ <;>
    intro h <;> simp [applyUpdate, h]

/-- C7 witness: an update supplying only `pinned` at a concrete note leaves
every other field unchanged and stamps the new `updated_at`. -/
theorem C7_witness :
    (simpleUpdateNote 9 [⟨1, "t".data, "c".data, [], false, 3, 4, none, false⟩]
        { id := 1, pinned := some true }).2 =
      some (applyUpdate 9 { id := 1, pinned := some true }
        ⟨1, "t".data, "c".data, [], false, 3, 4, none, false⟩) ∧
    (applyUpdate 9 { id := 1, pinned := some true }
        ⟨1, "t".data, "c".data, [], false, 3, 4, none, false⟩).id = 1 ∧
    (applyUpdate 9 { id := 1, pinned := some true }
        ⟨1, "t".data, "c".data, [], false, 3, 4, none, false⟩).created_at = 3 ∧
    (applyUpdate 9 { id := 1, pinned := some true }
        ⟨1, "t".data, "c".data, [], false, 3, 4, none, false⟩).updated_at = 9 ∧
    (applyUpdate 9 { id := 1, pinned := some true }
        ⟨1, "t".data, "c".data, [], false, 3, 4, none, false⟩).title = "t".data ∧
    (applyUpdate 9 { id := 1, pinned := some true }
        ⟨1, "t".data, "c".data, [], false, 3, 4, none, false⟩).content = "c".data ∧
    (applyUpdate 9 { id := 1, pinned := some true }
        ⟨1, "t".data, "c".data, [], false, 3, 4, none, false⟩).tags = [] ∧
    (applyUpdate 9 { id := 1, pinned := some true }
        ⟨1, "t".data, "c".data, [], false, 3, 4, none, false⟩).folder_id = none ∧
    (applyUpdate 9 { id := 1, pinned := some true }
        ⟨1, "t".data, "c".data, [], false, 3, 4, none, false⟩).encrypted = false := by
  have h := C7_theorem 9 [⟨1, "t".data, "c".data, [], false, 3, 4, none, false⟩]
    { id := 1, pinned := some true } ⟨1, "t".data, "c".data, [], false, 3, 4, none, false⟩
    (by decide)
  exact ⟨h.1, h.2.1, h.2.2.1, h.2.2.2.1, h.2.2.2.2.1 rfl, h.2.2.2.2.2.1 rfl,
    h.2.2.2.2.2.2.1 rfl, h.2.2.2.2.2.2.2.2.1 rfl, h.2.2.2.2.2.2.2.2.2 rfl⟩

/-! ## Claim C8 -/

/-- C8 counterexample: the key-value backend persists the whole collection
as one JSON document, so a single malformed record makes GetAll return the
empty list — the valid record is not returned, refuting the claim for the
KeyValueBackend. -/
theorem C8_counterexample :
    kvGetNotesFromStorage
        (some [StoredRecord.valid ⟨1, "t".data, "c".data, [], false, 0, 0, none, false⟩,
          StoredRecord.malformed]) = [] ∧
    kvGetNotes {}
        (some [StoredRecord.valid ⟨1, "t".data, "c".data, [], false, 0, 0, none, false⟩,
          StoredRecord.malformed]) = [] := by
  have h0 : kvGetNotesFromStorage
      (some [StoredRecord.valid ⟨1, "t".data, "c".data, [], false, 0, 0, none, false⟩,
        StoredRecord.malformed]) = [] := by decide
  refine ⟨h0, ?_⟩
  rw [kvGetNotes, h0]
  simp [queryNotes, applyFilters]

/-- C8 amended: in the file-tree backend, whose records are parsed one file
at a time, a single malformed record among valid ones is skipped: the parse
stage returns exactly the valid records, getNotes behaves as if only the
valid records were stored, and every valid record is still returned by the
unfiltered GetAll.  (In the key-value backend the whole single-document
collection parse fails instead and GetAll returns the empty list.) -/
theorem C8_theorem (a b : List Note) (f : SearchFilters) (n : Note) (hn : n ∈ a ++ b) :
    ftParseRecords
        (a.map StoredRecord.valid ++ StoredRecord.malformed :: b.map StoredRecord.valid) =
      a ++ b ∧
    ftGetNotes f
        (a.map StoredRecord.valid ++ StoredRecord.malformed :: b.map StoredRecord.valid) =
      queryNotes f (a ++ b) ∧
    n ∈ ftGetNotes {}
        (a.map StoredRecord.valid ++ StoredRecord.malformed :: b.map StoredRecord.valid) := by
  have hparse : ftParseRecords
      (a.map StoredRecord.valid ++ StoredRecord.malformed :: b.map StoredRecord.valid) =
      a ++ b := by
    have hcomp : (StoredRecord.note? ∘ StoredRecord.valid) = some := rfl
    simp [ftParseRecords, List.filterMap_append, List.filterMap_cons, List.filterMap_map,
      hcomp, StoredRecord.note?]
  refine ⟨hparse, by rw [ftGetNotes, hparse], ?_⟩
  rw [ftGetNotes, hparse]
  exact List.mem_mergeSort.mpr hn

/-- C8 witness: one malformed record between two valid ones; the first valid
record is still present in the file-tree GetAll. -/
theorem C8_witness :
    ftParseRecords
        ([⟨1, "t".data, "c".data, [], false, 0, 0, none, false⟩].map StoredRecord.valid ++
          StoredRecord.malformed ::
            [⟨2, "u".data, "d".data, [], false, 0, 0, none, false⟩].map StoredRecord.valid) =
      [⟨1, "t".data, "c".data, [], false, 0, 0, none, false⟩] ++
        [⟨2, "u".data, "d".data, [], false, 0, 0, none, false⟩] ∧
    ftGetNotes {}
        ([⟨1, "t".data, "c".data, [], false, 0, 0, none, false⟩].map StoredRecord.valid ++
          StoredRecord.malformed ::
            [⟨2, "u".data, "d".data, [], false, 0, 0, none, false⟩].map StoredRecord.valid) =
      queryNotes {}
        ([⟨1, "t".data, "c".data, [], false, 0, 0, none, false⟩] ++
          [⟨2, "u".data, "d".data, [], false, 0, 0, none, false⟩]) ∧
    (⟨1, "t".data, "c".data, [], false, 0, 0, none, false⟩ : Note) ∈
      ftGetNotes {}
        ([⟨1, "t".data, "c".data, [], false, 0, 0, none, false⟩].map StoredRecord.valid ++
          StoredRecord.malformed ::
            [⟨2, "u".data, "d".data, [], false, 0, 0, none, false⟩].map StoredRecord.valid) :=
  C8_theorem [⟨1, "t".data, "c".data, [], false, 0, 0, none, false⟩]
    [⟨2, "u".data, "d".data, [], false, 0, 0, none, false⟩] {}
    ⟨1, "t".data, "c".data, [], false, 0, 0, none, false⟩ (by decide)

/-! ## Claim C9 -/

/-- C9 counterexample: two creates within the same `Date.now()` millisecond
receive the same id — the assigned ids are not pairwise distinct. -/
theorem C9_counterexample :
    (createMany [(5, { title := "a".data, content := "x".data }),
        (5, { title := "b".data, content := "y".data })] []).map (fun n => n.id) =
      [5, 5] ∧
    ¬ ((createMany [(5, { title := "a".data, content := "x".data }),
        (5, { title := "b".data, content := "y".data })] []).map (fun n => n.id)).Nodup := by
  constructor <;> decide

/-- C9 amended: ids assigned by the key-value backend are the `Date.now()`
instants of the creates, so they are pairwise distinct (and distinct from
all pre-existing ids) whenever no two creates share a millisecond; and an
update never changes a note's id. -/
theorem C9_theorem (ops : List (Nat × CreateNoteData)) (notes : List Note)
    (now : Nat) (d : UpdateNoteData) (o : Note)
    (h1 : ((notes.map fun n => n.id) ++ ops.map Prod.fst).Nodup)
    (h2 : o.id = d.id) :
    ((createMany ops notes).map fun n => n.id).Nodup ∧
    (applyUpdate now d o).id = o.id := by
  constructor
  · rw [createMany_map_id]
    rw [List.nodup_append] at h1 ⊢
    obtain ⟨hn, ho, hdisj⟩ := h1
    exact ⟨List.nodup_reverse.mpr ho, hn,
      fun x hx hx2 => hdisj hx2 (List.mem_reverse.mp hx)⟩
  · simp [applyUpdate, h2]

/-- C9 witness: two creates at distinct instants yield distinct ids, and a
concrete pin-only update keeps the id. -/
theorem C9_witness :
    ((createMany [(1, { title := "a".data, content := "x".data }),
        (2, { title := "b".data, content := "y".data })] []).map fun n => n.id).Nodup ∧
    (applyUpdate 9 { id := 1, pinned := some true }
        ⟨1, "t".data, "c".data, [], false, 3, 4, none, false⟩).id =
      (⟨1, "t".data, "c".data, [], false, 3, 4, none, false⟩ : Note).id :=
  C9_theorem [(1, { title := "a".data, content := "x".data }),
      (2, { title := "b".data, content := "y".data })] [] 9
    { id := 1, pinned := some true } ⟨1, "t".data, "c".data, [], false, 3, 4, none, false⟩
    (by decide) rfl

/-! ## Claim C10 -/

/-- C10: the key-value backend keeps no folder state: getFolders always
returns exactly the hardcoded General folder with id 1, createFolder's
result (id `Date.now()`) is never persisted, and getFolderById of a created
folder's id is null unless that id happens to be 1, in which case it is the
General folder. -/
theorem C10_theorem (now now2 : Nat) (name : Str) (color : Option Str) (h1 : now ≠ 1) :
    simpleGetFolders now2 = [defaultFolder now2] ∧
    (defaultFolder now2).name = "General".data ∧
    (defaultFolder now2).id = 1 ∧
    (simpleCreateFolder now name color).id = now ∧
    simpleGetFolderById now2 (simpleCreateFolder now name color).id = none ∧
    simpleGetFolderById now2 1 = some (defaultFolder now2) := by
  refine ⟨rfl, rfl, rfl, rfl, ?_, ?_⟩
  · have hne : ((defaultFolder now2).id == now) = false := by
      simp [defaultFolder]
      omega
    simp [simpleGetFolderById, simpleGetFolders, simpleCreateFolder, List.find?, hne]
  · simp [simpleGetFolderById, simpleGetFolders, List.find?, defaultFolder]

/-- C10 witness: a concrete created folder (id 7) is invisible to
getFolderById while the General folder is returned for id 1. -/
theorem C10_witness :
    simpleGetFolders 3 = [defaultFolder 3] ∧
    (defaultFolder 3).name = "General".data ∧
    (defaultFolder 3).id = 1 ∧
    (simpleCreateFolder 7 "X".data none).id = 7 ∧
    simpleGetFolderById 3 (simpleCreateFolder 7 "X".data none).id = none ∧
    simpleGetFolderById 3 1 = some (defaultFolder 3) :=
  C10_theorem 7 3 "X".data none (by decide)

end Scribe
